import Mathlib

/-!
Verification of the well-identifier parsing and annotation-expansion engine of
the `ninetysix` package (`ninetysix/parsers.py`, `ninetysix/plate.py`,
`ninetysix/util/_validators.py`).

Python strings are modelled as `List Char`, Python dicts as insertion-ordered
association lists with unique keys (`Dict α`), and Python exceptions as an
explicit error type `PyError` threaded through `Except`.  Every definition
mirrors one function or code block of the source; the source file and lines are
named in each doc comment.
-/

set_option autoImplicit false

/-- Python strings, as lists of characters. -/
abbrev LC := List Char

/-- Convert a Lean string literal to the `List Char` model of Python strings. -/
def toLC (s : String) : LC := s.toList

/-- A Python dict: insertion-ordered association list.  Real Python dicts have
unique keys; theorems add that as a hypothesis where it matters. -/
abbrev Dict (α : Type) := List (LC × α)

/-- Kinds of exception the modelled code can raise.  Python raises `ValueError`
(with distinct messages), `IndexError` or `KeyError`; the constructors record
the raise site so theorems can tell them apart. -/
inductive PyError where
  /-- Python `IndexError`, from `well[0]` on an empty string. -/
  | indexError
  /-- Python `ValueError` raised by `int(...)` on a non-numeric string. -/
  | intParse
  /-- Python `ValueError` raised by `list.index(x)` when `x` is absent. -/
  | indexNotFound
  /-- The explicit `ValueError('Inconsistent zero padding ...')` of
  `well_regex` (parsers.py lines 140-144). -/
  | inconsistentPadding
  /-- Python `KeyError` from `dict.pop` (unreachable when dict keys are
  unique, which Python guarantees). -/
  | keyError
  /-- The `ValueError('Multiple non-well keys found ...')` of
  `check_annotations` (_validators.py lines 112-116). -/
  | multipleNonWellKeys
  /-- The `ValueError("Non-well key ... does not match acceptable default
  arguments")` of `check_annotations` (_validators.py lines 121-126). -/
  | unknownDefaultKey
  deriving DecidableEq, Repr

deriving instance DecidableEq for Except

/-! ### Decimal digits: Python `int(s)` and `str(n)` on the column substring -/

/-- The character for a decimal digit value (used to model Python `str(n)`). -/
def digitChar (n : Nat) : Char :=
  if n = 0 then '0' else if n = 1 then '1' else if n = 2 then '2'
  else if n = 3 then '3' else if n = 4 then '4' else if n = 5 then '5'
  else if n = 6 then '6' else if n = 7 then '7' else if n = 8 then '8'
  else if n = 9 then '9' else '*'

/-- Numeric value of a digit character (used to model Python `int(s)`). -/
def digitVal (c : Char) : Nat := c.toNat - '0'.toNat

/-- Fuel-driven decimal printer (most significant digit first).  Structural in
the fuel so that the kernel can evaluate it inside `decide`. -/
def natDigitsAux : Nat → Nat → List Char
  | 0, _ => []
  | fuel + 1, n =>
    if n < 10 then [digitChar n]
    else natDigitsAux fuel (n / 10) ++ [digitChar (n % 10)]

/-- Python `str(n)` for a nonnegative integer `n`. -/
def natDigits (n : Nat) : List Char := natDigitsAux (n + 1) n

/-- Python `int(s)` restricted to strings of decimal digits: `none` models the
`ValueError` raised on empty or non-numeric input. -/
def parseDigits? (s : LC) : Option Nat :=
  if s = [] then none
  else if s.all Char.isDigit then
    some (s.foldl (fun a c => 10 * a + digitVal c) 0)
  else none

/-! ### parsers.py: `_infer_padding` and `pad` -/

/-- `_infer_padding(well)` (parsers.py lines 18-33): guesses whether a well is
zero padded by comparing `well[1:]` with `str(int(well[1:]))`.  Raises
`IndexError` on an empty string (`well[0]`) and `ValueError` when the column
substring is not numeric. -/
def inferPadding (well : LC) : Except PyError Bool :=
  match well with
  | [] => .error .indexError
  | _row :: strCol =>
    match parseDigits? strCol with
    | none => .error .intParse
    | some n => .ok (decide (strCol.length ≠ (natDigits n).length))

/-- `pad(well, padded=True)` (parsers.py lines 35-53): re-canonicalizes the
column part via `str(int(col))` and prefixes `'0'` when `padded` and the
result is a single digit. -/
def pad (well : LC) (padded : Bool := true) : Except PyError LC :=
  match well with
  | [] => .error .indexError
  | row :: colS =>
    match parseDigits? colS with
    | none => .error .intParse
    | some n =>
      let col := natDigits n
      let col := if padded then (if col.length = 1 then '0' :: col else col) else col
      .ok (row :: col)

/-- The `try: pad(well) except ValueError: well` pattern of the final padding
loop of `well_regex` (parsers.py lines 186-189). -/
def padKeep (well : LC) : LC :=
  match pad well true with
  | .ok w => w
  | .error _ => well

/-! ### Python dict primitives -/

/-- `d.pop(k)`: remove key `k` returning its value; `none` models `KeyError`. -/
def dictPop {α : Type} : Dict α → LC → Option (α × Dict α)
  | [], _ => none
  | (k', v') :: rest, k =>
    if k' = k then some (v', rest)
    else
      match dictPop rest k with
      | none => none
      | some (v, rest') => some (v, (k', v') :: rest')

/-- `d[k] = v`: update in place if the key exists, else append (Python dicts
preserve insertion order and update values in place). -/
def dictSet {α : Type} : Dict α → LC → α → Dict α
  | [], k, v => [(k, v)]
  | (k', v') :: rest, k, v =>
    if k' = k then (k, v) :: rest
    else (k', v') :: dictSet rest k v

/-- `d.get(k)`: value of the first entry with key `k`, if any. -/
def dictGet {α : Type} : Dict α → LC → Option α
  | [], _ => none
  | (k', v') :: rest, k => if k' = k then some v' else dictGet rest k

/-- Assign the same value to every well in a list, in order (the
`for well in wells: parsed_dict[well] = value` loop, parsers.py lines 174-175). -/
def dictSetAll {α : Type} (d : Dict α) (ws : List LC) (v : α) : Dict α :=
  ws.foldl (fun d w => dictSet d w v) d

/-! ### Python string helpers: `split`, slicing, `find`, `rfind`, `index` -/

/-- Python `s.split(sep)` for a single-character separator. -/
def pySplit (sep : Char) : List Char → List (List Char)
  | [] => [[]]
  | c :: rest =>
    let r := pySplit sep rest
    if c = sep then [] :: r
    else
      match r with
      | g :: gs => (c :: g) :: gs
      | [] => [[c]]

/-- Clamp a Python slice bound (negative values count from the end). -/
def pyBound (len : Nat) (i : Int) : Nat :=
  let j := if i < 0 then i + len else i
  (min (max j 0) len).toNat

/-- Python `s[i:j]` with full negative-index and clamping semantics. -/
def pySlice (s : LC) (i j : Int) : LC :=
  (s.take (pyBound s.length j)).drop (pyBound s.length i)

/-- Helper for `pyFind`: first index of `c` at offset `i`, `-1` if absent. -/
def pyFindAux : List Char → Char → Nat → Int
  | [], _, _ => -1
  | x :: xs, c, i => if x = c then (i : Int) else pyFindAux xs c (i + 1)

/-- Python `s.find(c)`: first index of `c`, or `-1`. -/
def pyFind (s : LC) (c : Char) : Int := pyFindAux s c 0

/-- Helper for `pyRFind`: best (last) index seen so far. -/
def pyRFindAux : List Char → Char → Nat → Int → Int
  | [], _, _, best => best
  | x :: xs, c, i, best => pyRFindAux xs c (i + 1) (if x = c then (i : Int) else best)

/-- Python `s.rfind(c)`: last index of `c`, or `-1`. -/
def pyRFind (s : LC) (c : Char) : Int := pyRFindAux s c 0 (-1)

/-- Python `l.index(x)` for a list of strings: position of the first
occurrence, or `ValueError` (modelled as `.error .indexNotFound`). -/
def pyIndex : List LC → LC → Except PyError Nat
  | [], _ => .error .indexNotFound
  | x :: xs, y =>
    if x = y then .ok 0
    else
      match pyIndex xs y with
      | .error e => .error e
      | .ok i => .ok (i + 1)

/-! ### parsers.py `well_regex` (lines 55-193) -/

/-- `rows = list('ABCDEFGHJLMNOP')` (parsers.py line 79): the canonical
14-letter row alphabet, as a list of one-character strings. -/
def ROWS : List LC := ("ABCDEFGHJLMNOP").toList.map (fun c => [c])

/-- `cols = [str(i) for i in range(1, 25)]` (parsers.py line 80). -/
def COLS0 : List LC := (List.range 24).map (fun i => natDigits (i + 1))

/-- `cols = [pad('_'+col)[1:] for col in cols]` (parsers.py line 147):
re-canonicalize the working column list to zero-padded form. -/
def colsPadded : List LC → Except PyError (List LC)
  | [] => .ok []
  | c :: cs =>
    match pad ('_' :: c) true with
    | .error e => .error e
    | .ok r =>
      match colsPadded cs with
      | .error e => .error e
      | .ok rs => .ok (r.drop 1 :: rs)

/-- `[_infer_padding('_'+val) for val in hyphen_split if int(val) < 10]`
(parsers.py lines 136-138): inferred padding of every endpoint below 10. -/
def paddingFlags : List LC → Except PyError (List Bool)
  | [] => .ok []
  | v :: rest =>
    match parseDigits? v with
    | none => .error .intParse
    | some n =>
      if n < 10 then
        match inferPadding ('_' :: v) with
        | .error e => .error e
        | .ok f =>
          match paddingFlags rest with
          | .error e => .error e
          | .ok fs => .ok (f :: fs)
      else paddingFlags rest

/-- Body of `for col_set in comma_split` (parsers.py lines 129-157): expand a
single comma-separated column group.  Returns the matching columns and the
(possibly re-padded) working column list, which the caller threads on. -/
def expandColSet (cols : List LC) (colSet : LC) : Except PyError (List LC × List LC) :=
  let hs := pySplit '-' colSet
  match hs with
  | a :: b :: _ =>
    (match paddingFlags hs with
     | .error e => .error e
     | .ok flags =>
       let padding := flags.dedup
       if padding.length > 1 then .error .inconsistentPadding
       else
         match (if padding.all (· = true) then colsPadded cols else .ok cols) with
         | .error e => .error e
         | .ok cols2 =>
           match pyIndex cols2 a with
           | .error e => .error e
           | .ok s =>
             match pyIndex cols2 b with
             | .error e => .error e
             | .ok e0 => .ok ((cols2.take (e0 + 1)).drop s, cols2))
  | _ => .ok (hs, cols)

/-- Fold `expandColSet` over all comma groups, concatenating matches and
threading the mutable `cols` list (parsers.py lines 122-157). -/
def expandColSets (cols : List LC) : List LC → Except PyError (List LC × List LC)
  | [] => .ok ([], cols)
  | g :: gs =>
    match expandColSet cols g with
    | .error e => .error e
    | .ok (m, cols2) =>
      match expandColSets cols2 gs with
      | .error e => .error e
      | .ok (ms, cols3) => .ok (m ++ ms, cols3)

/-- Body of `for row_set in comma_split` (parsers.py lines 104-116): expand a
single comma-separated row group.  A hyphenated group is resolved by position
in `ROWS` (inclusive slice `rows[i:j+1]`); a single token is kept literally. -/
def expandRowSet (rowSet : LC) : Except PyError (List LC) :=
  let hs := pySplit '-' rowSet
  match hs with
  | a :: b :: _ =>
    (match pyIndex ROWS a with
     | .error e => .error e
     | .ok i =>
       match pyIndex ROWS b with
       | .error e => .error e
       | .ok j => .ok ((ROWS.take (j + 1)).drop i))
  | _ => .ok hs

/-- Fold `expandRowSet` over all comma groups (parsers.py lines 97-116). -/
def expandRowSets : List LC → Except PyError (List LC)
  | [] => .ok []
  | g :: gs =>
    match expandRowSet g with
    | .error e => .error e
    | .ok m =>
      match expandRowSets gs with
      | .error e => .error e
      | .ok ms => .ok (m ++ ms)

/-- `itertools.product(matching_rows, matching_cols)` joined with `''.join`
(parsers.py lines 167-168). -/
def listProd : List LC → List LC → List LC
  | [], _ => []
  | r :: rs, cs => cs.map (fun c => r ++ c) ++ listProd rs cs

/-- Body of the main `for assignment in working_dict.keys()` loop for one key
(parsers.py lines 89-172), after the value has been popped: computes the list
of wells the key expands to, and the updated working column list. -/
def processAssignment (cols : List LC) (assignment : LC) :
    Except PyError (List LC × List LC) :=
  if '[' ∈ assignment then
    let rowB : Bool := assignment.headD ' ' = '['
    let colB : Bool := assignment.getLastD ' ' = ']'
    let rowsRes : Except PyError (List LC) :=
      if rowB then
        expandRowSets (pySplit ',' (pySlice assignment 1 (pyFind assignment ']')))
      else .ok [[assignment.headD ' ']]
    match rowsRes with
    | .error e => .error e
    | .ok matchingRows =>
      let colsRes : Except PyError (List LC × List LC) :=
        if colB then
          expandColSets cols
            (pySplit ',' (pySlice assignment (pyRFind assignment '[' + 1) (-1)))
        else
          let colStart : Int := if rowB then pyFind assignment ']' else 0
          .ok ([pySlice assignment (colStart + 1) (assignment.length : Int)], cols)
      match colsRes with
      | .error e => .error e
      | .ok (matchingCols, cols2) => .ok (listProd matchingRows matchingCols, cols2)
  else .ok ([assignment], cols)

/-- The main loop of `well_regex` (parsers.py lines 83-175): pop each key of
the input snapshot, expand it, and write every expanded well back with the
popped value.  The working column list `cols` is threaded across keys exactly
as the Python function-scope variable is. -/
def wellRegexLoop {α : Type} (cols : List LC) (parsed : Dict α) :
    List LC → Except PyError (Dict α × List LC)
  | [] => .ok (parsed, cols)
  | k :: ks =>
    match dictPop parsed k with
    | none => .error .keyError
    | some (v, parsed2) =>
      match processAssignment cols k with
      | .error e => .error e
      | .ok (wells, cols2) => wellRegexLoop cols2 (dictSetAll parsed2 wells v) ks

/-- The final padding loop of `well_regex` (parsers.py lines 183-189): pop each
key of the snapshot and re-insert it under `pad(well)`, keeping the original
key when `pad` raises `ValueError`. -/
def padLoopGo {α : Type} (acc : Dict α) : List LC → Except PyError (Dict α)
  | [] => .ok acc
  | w :: ws =>
    match dictPop acc w with
    | none => .error .keyError
    | some (v, acc2) =>
      match pad w true with
      | .ok w' => padLoopGo (dictSet acc2 w' v) ws
      | .error .intParse => padLoopGo (dictSet acc2 w v) ws
      | .error e => .error e

/-- `padded_dict = parsed_dict.copy(); for well in parsed_dict: ...`
(parsers.py lines 182-191). -/
def padLoop {α : Type} (parsed : Dict α) : Except PyError (Dict α) :=
  padLoopGo parsed (parsed.map Prod.fst)

/-- `[True for well in wells if _infer_padding(well)]`: the padding-inference
comprehension used both by `well_regex` (parsers.py lines 179-180) and by the
`Plate.zero_padding` setter (plate.py lines 320-321). -/
def inferTrueList : List LC → Except PyError (List Bool)
  | [] => .ok []
  | w :: ws =>
    match inferPadding w with
    | .error e => .error e
    | .ok f =>
      match inferTrueList ws with
      | .error e => .error e
      | .ok rest => .ok (if f then true :: rest else rest)

/-- The collection-level padding policy: `padded = [True for well in wells if
_infer_padding(well)]` followed by truthiness of the list (plate.py lines
318-324, parsers.py lines 178-182). -/
def inferPolicy (wells : List LC) : Except PyError Bool :=
  match inferTrueList wells with
  | .error e => .error e
  | .ok l => .ok (decide (l ≠ []))

/-- Apply the final padding step when the policy is truthy (parsers.py lines
181-191). -/
def padApply {α : Type} (parsed : Dict α) (p : Bool) : Except PyError (Dict α) :=
  if p then padLoop parsed else .ok parsed

/-- `well_regex(input_dict, padded=None)` (parsers.py lines 55-193). -/
def wellRegex {α : Type} (inputDict : Dict α) (padded : Option Bool := none) :
    Except PyError (Dict α) :=
  match wellRegexLoop COLS0 inputDict (inputDict.map Prod.fst) with
  | .error e => .error e
  | .ok (parsed, _cols) =>
    match padded with
    | some b => padApply parsed b
    | none =>
      match inferTrueList (parsed.map Prod.fst) with
      | .error e => .error e
      | .ok l => padApply parsed (decide (l ≠ []))

/-! ### plate.py `annotate_wells` and _validators.py `check_annotations` -/

/-- `acceptable_kwargs = ('default', 'standard', 'else', 'other')`
(plate.py line 746, _validators.py line 95). -/
def ACCEPTABLE : List LC := [toLC "default", toLC "standard", toLC "else", toLC "other"]

/-- Python `str.lower()` (ASCII keys). -/
def lcLower (s : LC) : LC := s.map Char.toLower

/-- Whether an entry's key is a default sentinel (`key.lower() in
acceptable_kwargs`). -/
def sentinelP {α : Type} (e : LC × α) : Bool := decide (lcLower e.1 ∈ ACCEPTABLE)

/-- The default-detection loop of `annotate_wells` (plate.py lines 744-749):
`default = None; for key in working_annotations: if key.lower() in
acceptable_kwargs: default = working_annotations[key]`.  The last matching key
wins. -/
def findDefault {α : Type} (working : Dict α) : Option α :=
  working.foldl (fun acc e => if sentinelP e then dictGet working e.1 else acc) none

/-- `rows = list('ABCDEFGHIJKLMNOP')` with `acceptable_wells` built from both
unpadded and padded forms (_validators.py lines 97-101).  Note this validator
alphabet has 16 letters, including `I` and `K`.  `pad` never fails on these
well strings, so the `.error` fallback below is never taken. -/
def ACCEPTABLE_WELLS : List LC :=
  let rows16 := ("ABCDEFGHIJKLMNOP").toList
  let cols := (List.range 24).map (fun i => natDigits (i + 1))
  let unpadded := rows16.flatMap (fun r => cols.map (fun c => r :: c))
  let padded := unpadded.map (fun w =>
    match pad w true with
    | .ok w' => w'
    | .error _ => w)
  unpadded ++ padded

/-- Validation of one annotation column (_validators.py lines 103-126): expand
the inner dict, compute the set of non-well keys, and fail when there are
several or when the single one is not a recognized default sentinel. -/
def checkColumnAnnotations {α : Type} (inner : Dict α) (zeroPadding : Bool) :
    Except PyError Unit :=
  match wellRegex inner (some zeroPadding) with
  | .error e => .error e
  | .ok working =>
    let nonwell := ((working.map Prod.fst).filter (fun k => ¬(k ∈ ACCEPTABLE_WELLS))).dedup
    if nonwell.length = 0 then .ok ()
    else if nonwell.length > 1 then .error .multipleNonWellKeys
    else
      match nonwell with
      | [k] => if lcLower k ∈ ACCEPTABLE then .ok () else .error .unknownDefaultKey
      | _ => .ok ()

/-- The per-column loop of `check_annotations` for dict input
(_validators.py lines 103-116), over `(column name, inner dict)` pairs. -/
def checkAnnotations {α : Type} (annotations : List (LC × Dict α)) (zeroPadding : Bool) :
    Except PyError Unit :=
  match annotations with
  | [] => .ok ()
  | (_, inner) :: rest =>
    match checkColumnAnnotations inner zeroPadding with
    | .error e => .error e
    | .ok _ => checkAnnotations rest zeroPadding

/-- One iteration of the `for column in annotations.keys()` loop of
`Plate.annotate_wells` (plate.py lines 739-756) for a dict annotation:
validate, expand the inner dict with the plate's zero-padding policy, find the
default, and give every well of the plate's well space (the dataframe index)
the expanded value if present, else the default
(`index.map(working_annotations.get)` followed by `.replace({None: default})`).
The cell type is `Option α`: `none` is the null left when neither an
expression nor a default matches. -/
def annotateColumn {α : Type} (inner : Dict α) (zeroPadding : Bool)
    (wellSpace : List LC) : Except PyError (List (LC × Option α)) :=
  match checkColumnAnnotations inner zeroPadding with
  | .error e => .error e
  | .ok _ =>
    match wellRegex inner (some zeroPadding) with
    | .error e => .error e
    | .ok working =>
      .ok (wellSpace.map (fun w =>
        (w, match dictGet working w with
            | some v => some v
            | none => findDefault working)))

/-! ### Lemmas: decimal digits -/

theorem digitChar_isDigit : ∀ n < 10, (digitChar n).isDigit = true := by decide

theorem digitVal_digitChar : ∀ n < 10, digitVal (digitChar n) = n := by decide

theorem natDigitsAux_ne_nil : ∀ fuel n, n < fuel → natDigitsAux fuel n ≠ [] := by
  intro fuel
  induction fuel with
  | zero => intro n h; omega
  | succ f ih =>
    intro n _
    rw [natDigitsAux]
    by_cases h10 : n < 10
    · rw [if_pos h10]; simp
    · rw [if_neg h10]; simp

theorem natDigitsAux_all_digits :
    ∀ fuel n, n < fuel → (natDigitsAux fuel n).all Char.isDigit = true := by
  intro fuel
  induction fuel with
  | zero => intro n h; omega
  | succ f ih =>
    intro n h
    rw [natDigitsAux]
    by_cases h10 : n < 10
    · rw [if_pos h10]
      simp [digitChar_isDigit n h10]
    · rw [if_neg h10]
      have hd : n / 10 < f := by
        have := Nat.div_lt_self (show 0 < n by omega) (show 1 < 10 by norm_num)
        omega
      simp [List.all_append, ih _ hd,
        digitChar_isDigit (n % 10) (Nat.mod_lt _ (by norm_num))]

theorem natDigitsAux_foldl :
    ∀ fuel n, n < fuel → ∀ a : Nat,
      (natDigitsAux fuel n).foldl (fun x c => 10 * x + digitVal c) a
        = a * 10 ^ (natDigitsAux fuel n).length + n := by
  intro fuel
  induction fuel with
  | zero => intro n h; omega
  | succ f ih =>
    intro n h a
    rw [natDigitsAux]
    by_cases h10 : n < 10
    · rw [if_pos h10]
      simp [List.foldl, digitVal_digitChar n h10]
      ring
    · rw [if_neg h10]
      have hd : n / 10 < f := by
        have := Nat.div_lt_self (show 0 < n by omega) (show 1 < 10 by norm_num)
        omega
      rw [List.foldl_append, ih _ hd a]
      simp only [List.foldl, List.length_append, List.length_singleton]
      rw [digitVal_digitChar (n % 10) (Nat.mod_lt _ (by norm_num))]
      have hx : a * 10 ^ ((natDigitsAux f (n / 10)).length + 1)
          = a * 10 ^ (natDigitsAux f (n / 10)).length * 10 := by ring
      rw [hx]
      generalize a * 10 ^ (natDigitsAux f (n / 10)).length = X
      omega

theorem parseDigits_natDigits (n : Nat) : parseDigits? (natDigits n) = some n := by
  unfold parseDigits? natDigits
  rw [if_neg (natDigitsAux_ne_nil _ _ (Nat.lt_succ_self n))]
  rw [if_pos (natDigitsAux_all_digits _ _ (Nat.lt_succ_self n))]
  rw [natDigitsAux_foldl _ _ (Nat.lt_succ_self n) 0]
  simp

theorem parseDigits_zero_cons (n : Nat) : parseDigits? ('0' :: natDigits n) = some n := by
  unfold parseDigits? natDigits
  rw [if_neg (by simp : ¬('0' :: natDigitsAux (n + 1) n = []))]
  rw [if_pos (by
    simp only [List.all_cons, natDigitsAux_all_digits _ _ (Nat.lt_succ_self n)]
    decide)]
  simp only [List.foldl]
  have h0 : 10 * 0 + digitVal '0' = 0 := by decide
  rw [h0, natDigitsAux_foldl _ _ (Nat.lt_succ_self n) 0]
  simp

/-! ### Lemmas: `pad` -/

theorem parseDigits_all_digits {s : LC} {n : Nat} (h : parseDigits? s = some n) :
    s.all Char.isDigit = true := by
  unfold parseDigits? at h
  split at h
  · exact absurd h (by simp)
  · split at h
    · assumption
    · exact absurd h (by simp)

theorem parseDigits_ne_nil {s : LC} {n : Nat} (h : parseDigits? s = some n) : s ≠ [] := by
  unfold parseDigits? at h
  split at h
  · exact absurd h (by simp)
  · assumption

theorem pad_error_intParse {w : LC} {b : Bool} {e : PyError} (hw : w ≠ [])
    (h : pad w b = .error e) : e = .intParse := by
  match w with
  | [] => exact absurd rfl hw
  | r :: colS =>
    cases hp : parseDigits? colS with
    | none =>
      simp only [pad, hp] at h
      injection h with h
      exact h.symm
    | some n =>
      simp only [pad, hp] at h
      exact absurd h (by simp)

/-- C5 sentences: `pad(pad(w, p1), p2) == pad(w, p2)` whenever the inner
application succeeds (the column substring parses as a decimal integer). -/
theorem pad_pad (w w1 : LC) (p1 p2 : Bool) (h : pad w p1 = .ok w1) :
    pad w1 p2 = pad w p2 := by
  match w with
  | [] => exact absurd h (by simp [pad])
  | r :: colS =>
    cases hp : parseDigits? colS with
    | none =>
      exact absurd h (by simp [pad, hp])
    | some n =>
      simp only [pad, hp] at h
      injection h with h
      subst h
      cases p1 with
      | false =>
        simp only [Bool.false_eq_true, if_false]
        simp only [pad, parseDigits_natDigits n, hp]
      | true =>
        by_cases hl : (natDigits n).length = 1
        · simp only [if_true, if_pos hl]
          simp only [pad, parseDigits_zero_cons n, hp, hl, if_pos rfl]
        · simp only [if_true, if_neg hl]
          simp only [pad, parseDigits_natDigits n, hp]

/-! ### Lemmas: dict primitives -/

theorem dictGet_set_self {α : Type} (d : Dict α) (k : LC) (v : α) :
    dictGet (dictSet d k v) k = some v := by
  induction d with
  | nil => simp [dictSet, dictGet]
  | cons e rest ih =>
    obtain ⟨k', v'⟩ := e
    by_cases h : k' = k
    · simp [dictSet, dictGet, h]
    · simp [dictSet, dictGet, h, ih]

theorem dictGet_set_ne {α : Type} (d : Dict α) (u k : LC) (v : α) (h : u ≠ k) :
    dictGet (dictSet d u v) k = dictGet d k := by
  induction d with
  | nil => simp [dictSet, dictGet, h]
  | cons e rest ih =>
    obtain ⟨k', v'⟩ := e
    by_cases h1 : k' = u
    · subst h1
      simp [dictSet, dictGet, h]
    · by_cases h2 : k' = k
      · simp [dictSet, dictGet, h1, h2, Ne.symm h]
      · simp [dictSet, dictGet, h1, h2, ih]

theorem dictGet_set_keep {α : Type} (d : Dict α) (u k : LC) (v : α)
    (h : dictGet d k = some v) : dictGet (dictSet d u v) k = some v := by
  by_cases hu : u = k
  · subst hu; exact dictGet_set_self ..
  · rw [dictGet_set_ne _ _ _ _ hu]; exact h

theorem dictSetAll_cons {α : Type} (d : Dict α) (w : LC) (ws : List LC) (v : α) :
    dictSetAll d (w :: ws) v = dictSetAll (dictSet d w v) ws v := rfl

theorem dictGet_setAll_keep {α : Type} (ws : List LC) (d : Dict α) (k : LC) (v : α)
    (h : dictGet d k = some v) : dictGet (dictSetAll d ws v) k = some v := by
  induction ws generalizing d with
  | nil => exact h
  | cons w ws ih =>
    rw [dictSetAll_cons]
    exact ih _ (dictGet_set_keep _ _ _ _ h)

theorem dictGet_setAll_mem {α : Type} (ws : List LC) (d : Dict α) (k : LC) (v : α)
    (h : k ∈ ws) : dictGet (dictSetAll d ws v) k = some v := by
  induction ws generalizing d with
  | nil => cases h
  | cons w ws ih =>
    rw [dictSetAll_cons]
    by_cases hm : k ∈ ws
    · exact ih _ hm
    · have hw : k = w := by
        rcases List.mem_cons.mp h with h' | h'
        · exact h'
        · exact absurd h' hm
      subst hw
      exact dictGet_setAll_keep _ _ _ _ (dictGet_set_self ..)

theorem dictPop_set_ne {α : Type} (d : Dict α) (u k : LC) (v : α) (h : u ≠ k) :
    dictPop (dictSet d u v) k
      = (dictPop d k).map (fun p => (p.1, dictSet p.2 u v)) := by
  induction d with
  | nil => simp [dictSet, dictPop, h]
  | cons e rest ih =>
    obtain ⟨k', v'⟩ := e
    by_cases h1 : k' = u
    · subst h1
      simp only [dictSet, if_pos rfl, dictPop, h, if_neg h]
      cases hrest : dictPop rest k with
      | none => simp
      | some p => simp [dictSet]
    · by_cases h2 : k' = k
      · subst h2
        simp [dictSet, dictPop, h1, (by exact fun hh => h1 hh.symm : ¬(u = k'))]
      · simp only [dictSet, if_neg h1, dictPop, if_neg h2, ih]
        cases hrest : dictPop rest k with
        | none => simp
        | some p => simp [dictSet, if_neg h1]

theorem dictPop_setAll_ne {α : Type} (ws : List LC) (d : Dict α) (k : LC) (v : α)
    (h : ∀ u ∈ ws, u ≠ k) :
    dictPop (dictSetAll d ws v) k
      = (dictPop d k).map (fun p => (p.1, dictSetAll p.2 ws v)) := by
  induction ws generalizing d with
  | nil =>
    cases hd : dictPop d k <;> simp [dictSetAll, hd]
  | cons w ws ih =>
    rw [dictSetAll_cons]
    rw [ih _ (fun u hu => h u (List.mem_cons_of_mem _ hu))]
    rw [dictPop_set_ne _ _ _ _ (h w (List.mem_cons_self ..))]
    cases dictPop d k with
    | none => simp
    | some p => simp [dictSetAll_cons]

/-! ### Lemmas: `pySplit` and digit membership -/

theorem pySplit_not_mem {sep : Char} {l : List Char} (h : sep ∉ l) :
    pySplit sep l = [l] := by
  induction l with
  | nil => rfl
  | cons c cs ih =>
    have hc : ¬(c = sep) := by
      rintro rfl; exact h (List.mem_cons_self ..)
    have hcs : sep ∉ cs := fun hm => h (List.mem_cons_of_mem _ hm)
    simp [pySplit, hc, ih hcs]

theorem pySplit_append {sep : Char} {a b : List Char} (h : sep ∉ a) :
    pySplit sep (a ++ sep :: b) = a :: pySplit sep b := by
  induction a with
  | nil => simp [pySplit]
  | cons c cs ih =>
    have hc : ¬(c = sep) := by
      rintro rfl; exact h (List.mem_cons_self ..)
    have hcs : sep ∉ cs := fun hm => h (List.mem_cons_of_mem _ hm)
    simp only [List.cons_append, pySplit, hc, if_false, List.append_eq, ih hcs]

theorem pySplit_ne_nil {sep : Char} (l : List Char) : pySplit sep l ≠ [] := by
  induction l with
  | nil => simp [pySplit]
  | cons c cs ih =>
    simp only [pySplit]
    by_cases hc : c = sep
    · simp [hc]
    · simp only [hc, if_false]
      cases pySplit sep cs with
      | nil => simp
      | cons g gs => simp

theorem not_mem_of_all_digits {l : LC} {c : Char} (hl : l.all Char.isDigit = true)
    (hc : c.isDigit = false) : c ∉ l := by
  intro hm
  have := List.all_eq_true.mp hl c hm
  rw [hc] at this
  exact absurd this (by simp)

theorem hyphen_not_digit : ('-').isDigit = false := by decide

/-! ### Claim C2: collection-level padding inference is a logical OR -/

theorem inferTrueList_spec {ws : List LC} {l : List Bool} (h : inferTrueList ws = .ok l) :
    l ≠ [] ↔ ∃ w ∈ ws, inferPadding w = .ok true := by
  induction ws generalizing l with
  | nil =>
    simp only [inferTrueList] at h
    injection h with h
    subst h
    simp
  | cons w ws ih =>
    cases hw : inferPadding w with
    | error e => simp [inferTrueList, hw] at h
    | ok f =>
      cases hr : inferTrueList ws with
      | error e => simp [inferTrueList, hw, hr] at h
      | ok rest =>
        simp only [inferTrueList, hw, hr] at h
        injection h with h
        subst h
        cases f with
        | true => simp [hw]
        | false =>
          simp only [Bool.false_eq_true, if_false]
          rw [ih hr]
          simp [hw]

/-- C2: the inferred zero-padding policy over a collection of wells is true iff
at least one element individually infers as padded (logical OR, not majority
vote); when no element infers as padded the policy is false. -/
theorem inferPolicy_or (ws : List LC) (b : Bool) (h : inferPolicy ws = .ok b) :
    b = true ↔ ∃ w ∈ ws, inferPadding w = .ok true := by
  cases hl : inferTrueList ws with
  | error e => simp [inferPolicy, hl] at h
  | ok l =>
    simp only [inferPolicy, hl] at h
    injection h with h
    subst h
    rw [← inferTrueList_spec hl]
    simp

/-- Witness for C2 at the collection ["A01", "B2"]: one padded well forces the
policy true. -/
theorem inferPolicy_or_witness :
    inferPolicy [toLC "A01", toLC "B2"] = .ok true ∧
      (∃ w ∈ [toLC "A01", toLC "B2"], inferPadding w = .ok true) :=
  ⟨by decide, (inferPolicy_or [toLC "A01", toLC "B2"] true (by decide)).mp rfl⟩

/-! ### Claim C3: expansion of a bracket-free key -/

/-- C3 counterexample: expanding "A01" under policy false returns the key as
given ("A01"), not the claimed canonicalized "A1". -/
theorem wellRegex_A01_false_counterexample :
    wellRegex [(toLC "A01", (1 : Nat))] (some false) = .ok [(toLC "A01", 1)] ∧
      ¬ wellRegex [(toLC "A01", (1 : Nat))] (some false) = .ok [(toLC "A1", 1)] := by
  constructor
  · decide
  · decide

/-- C3 amended: a key without a bracket expands to the singleton mapping whose
key is canonicalized (padded, or kept on `ValueError`) when the policy is
true, but is returned exactly as given when the policy is false. -/
theorem wellRegex_single_plain {α : Type} (k : LC) (v : α) (hni : '[' ∉ k) (hne : k ≠ []) :
    wellRegex [(k, v)] (some false) = .ok [(k, v)] ∧
    wellRegex [(k, v)] (some true) = .ok [(padKeep k, v)] := by
  have hloop : wellRegexLoop (α := α) COLS0 [(k, v)] [k] = .ok ([(k, v)], COLS0) := by
    simp [wellRegexLoop, dictPop, processAssignment, hni, dictSetAll, dictSet]
  constructor
  · simp [wellRegex, hloop, padApply]
  · simp only [wellRegex, List.map_cons, List.map_nil, hloop, padApply, if_pos rfl]
    cases hp : pad k true with
    | ok w' => simp [padLoop, padLoopGo, dictPop, dictSet, padKeep, hp]
    | error e =>
      have he := pad_error_intParse hne hp
      subst he
      simp [padLoop, padLoopGo, dictPop, dictSet, padKeep, hp]

/-- Witness for C3 (amended) at the key "A1": unchanged under policy false,
padded to "A01" under policy true. -/
theorem wellRegex_single_plain_witness :
    ('[' ∉ toLC "A1") ∧ (toLC "A1" ≠ []) ∧
    (wellRegex [(toLC "A1", (1 : Nat))] (some false) = .ok [(toLC "A1", 1)] ∧
     wellRegex [(toLC "A1", (1 : Nat))] (some true) = .ok [(padKeep (toLC "A1"), 1)]) ∧
    padKeep (toLC "A1") = toLC "A01" :=
  ⟨by decide, by decide, wellRegex_single_plain (toLC "A1") 1 (by decide) (by decide),
    by decide⟩

/-! ### Claim C10: the working column list is mutated across keys -/

/-- C10: within one `well_regex` call the re-canonicalization of the column
list by a zero-padded hyphenated range persists for subsequent keys: for
{"A[01-03]": 1, "B[1-3]": 2} in that insertion order, the later key raises a
lookup `ValueError`, although each key alone succeeds and the reversed
insertion order succeeds. -/
theorem wellRegex_cols_stateful :
    wellRegex [(toLC "A[01-03]", (1 : Nat)), (toLC "B[1-3]", 2)] none
        = .error .indexNotFound ∧
    wellRegex [(toLC "A[01-03]", (1 : Nat))] none
        = .ok [(toLC "A01", 1), (toLC "A02", 1), (toLC "A03", 1)] ∧
    wellRegex [(toLC "B[1-3]", (2 : Nat))] none
        = .ok [(toLC "B1", 2), (toLC "B2", 2), (toLC "B3", 2)] ∧
    wellRegex [(toLC "B[1-3]", (2 : Nat)), (toLC "A[01-03]", 1)] none
        = .ok [(toLC "B01", 2), (toLC "B02", 2), (toLC "B03", 2),
               (toLC "A01", 1), (toLC "A02", 1), (toLC "A03", 1)] :=
  ⟨by decide, by decide, by decide, by decide⟩

/-! ### Claim C7: rows I and K in bracketed row expressions -/

/-- C7 counterexample: "[I]1" expands without error to the well "I1", so
expansion results can contain row I (single comma-group elements are never
looked up in the row alphabet). -/
theorem wellRegex_I_literal_counterexample :
    wellRegex [(toLC "[I]1", (1 : Nat))] (some false) = .ok [(toLC "I1", 1)] := by
  decide

/-- C7 amended: a hyphen endpoint I or K fails the row-alphabet lookup
(`ValueError` from `rows.index`), in either endpoint position; but a
comma-group consisting of the bare letter is emitted literally, so the
expansion succeeds and contains a row I or K. -/
theorem wellRegex_IK_rows (c : Char) (hc : c = 'I' ∨ c = 'K') :
    wellRegex [(['[', c, '-', 'P', ']', '1'], (1 : Nat))] (some false)
        = .error .indexNotFound ∧
    wellRegex [(['[', 'A', '-', c, ']', '1'], (1 : Nat))] (some false)
        = .error .indexNotFound ∧
    wellRegex [(['[', c, ']', '1'], (1 : Nat))] (some false) = .ok [([c, '1'], 1)] := by
  rcases hc with rfl | rfl
  · exact ⟨by decide, by decide, by decide⟩
  · exact ⟨by decide, by decide, by decide⟩

/-- Witness for C7 (amended) at the letter I. -/
theorem wellRegex_IK_rows_witness :
    wellRegex [(toLC "[I-P]1", (1 : Nat))] (some false) = .error .indexNotFound ∧
    wellRegex [(toLC "[A-I]1", (1 : Nat))] (some false) = .error .indexNotFound ∧
    wellRegex [(toLC "[I]1", (1 : Nat))] (some false) = .ok [(toLC "I1", 1)] :=
  wellRegex_IK_rows 'I' (Or.inl rfl)

/-! ### Claim C4: reversed hyphenated row ranges -/

/-- Whether `x` occurs strictly before `y` in `l` (both found by `list.index`). -/
def idxLtB (l : List LC) (x y : LC) : Bool :=
  match pyIndex l x, pyIndex l y with
  | .ok i, .ok j => decide (i < j)
  | _, _ => false

/-- C4 counterexample: "[C-A]1" raises nothing; the slice is empty and the key
is silently dropped, leaving an empty mapping. -/
theorem wellRegex_CA_counterexample :
    wellRegex [(toLC "[C-A]1", (1 : Nat))] (some false) = .ok [] := by
  decide

/-- C4 amended: for every hyphenated row range whose start letter occurs
strictly after its end letter in the canonical 14-letter row alphabet, the
row slice is empty, so expansion raises no error and the key silently expands
to no wells (an empty mapping results). -/
theorem wellRegex_reversed_row_range :
    ∀ s ∈ ROWS, ∀ t ∈ ROWS, idxLtB ROWS t s = true →
      wellRegex [('[' :: s ++ '-' :: t ++ [']', '1'], (1 : Nat))] (some false) = .ok [] := by
  decide

/-- Witness for C4 (amended) at the range "[C-A]1". -/
theorem wellRegex_reversed_row_range_witness :
    (toLC "C" ∈ ROWS) ∧ (toLC "A" ∈ ROWS) ∧ idxLtB ROWS (toLC "A") (toLC "C") = true ∧
      wellRegex [('[' :: toLC "C" ++ '-' :: toLC "A" ++ [']', '1'], (1 : Nat))]
        (some false) = .ok [] :=
  ⟨by decide, by decide, by decide,
    wellRegex_reversed_row_range (toLC "C") (by decide) (toLC "A") (by decide) (by decide)⟩

/-! ### Claim C6: inconsistent zero padding in a hyphenated column range -/

/-- C6: a hyphenated column range whose endpoints (both below 10, where
padding is inferable) infer different padding forms fails with the
inconsistent-padding `ValueError` before any index lookup; and so does the
whole `well_regex` call on "A[1-09]". -/
theorem expandColSet_inconsistent_padding :
    (∀ (a b : LC) (m n : Nat) (pa pb : Bool) (cols : List LC),
      parseDigits? a = some m → parseDigits? b = some n → m < 10 → n < 10 →
      inferPadding ('_' :: a) = .ok pa → inferPadding ('_' :: b) = .ok pb → pa ≠ pb →
      expandColSet cols (a ++ '-' :: b) = .error .inconsistentPadding) ∧
    wellRegex [(toLC "A[1-09]", (1 : Nat))] none = .error .inconsistentPadding := by
  constructor
  · intro a b m n pa pb cols ha hb hm hn hpa hpb hne
    have hda : ('-') ∉ a := not_mem_of_all_digits (parseDigits_all_digits ha) hyphen_not_digit
    have hdb : ('-') ∉ b := not_mem_of_all_digits (parseDigits_all_digits hb) hyphen_not_digit
    have hsplit : pySplit '-' (a ++ '-' :: b) = [a, b] := by
      rw [pySplit_append hda, pySplit_not_mem hdb]
    have hflags : paddingFlags [a, b] = .ok [pa, pb] := by
      simp [paddingFlags, ha, hb, hm, hn, hpa, hpb]
    have hdedup : ([pa, pb] : List Bool).dedup = [pa, pb] := by
      rw [List.dedup_cons_of_not_mem (by simp [hne]), List.dedup_cons_of_not_mem (by simp),
        List.dedup_nil]
    simp only [expandColSet, hsplit, hflags, hdedup]
    simp
  · decide

/-- Witness for C6 at the range "1-09" (the endpoints of "A[1-09]"): padding of
"1" infers false, of "09" infers true. -/
theorem expandColSet_inconsistent_padding_witness :
    parseDigits? (toLC "1") = some 1 ∧ parseDigits? (toLC "09") = some 9 ∧
    inferPadding ('_' :: toLC "1") = .ok false ∧ inferPadding ('_' :: toLC "09") = .ok true ∧
    expandColSet COLS0 (toLC "1" ++ '-' :: toLC "09") = .error .inconsistentPadding :=
  ⟨by decide, by decide, by decide, by decide,
    expandColSet_inconsistent_padding.1 (toLC "1") (toLC "09") 1 9 false true COLS0
      (by decide) (by decide) (by decide) (by decide) (by decide) (by decide) (by decide)⟩

/-! ### Claim C8: multiple default sentinels in one column -/

theorem natDigitsAux_length_lt_ten : ∀ fuel n, n < fuel → n < 10 →
    (natDigitsAux fuel n).length = 1 := by
  intro fuel n h h10
  match fuel with
  | 0 => omega
  | f + 1 =>
    rw [natDigitsAux, if_pos h10]
    rfl

theorem natDigitsAux_length_le_two : ∀ fuel n, n < fuel → n < 100 →
    (natDigitsAux fuel n).length ≤ 2 := by
  intro fuel
  induction fuel with
  | zero => intro n h; omega
  | succ f ih =>
    intro n h h100
    rw [natDigitsAux]
    by_cases h10 : n < 10
    · rw [if_pos h10]; simp
    · rw [if_neg h10]
      rw [List.length_append]
      have hd : n / 10 < f := by
        have := Nat.div_lt_self (show 0 < n by omega) (show 1 < 10 by norm_num)
        omega
      have h1 : (natDigitsAux f (n / 10)).length = 1 :=
        natDigitsAux_length_lt_ten f (n / 10) hd (by omega)
      simp [h1]

theorem natDigits_length_le_two {n : Nat} (h : n < 100) : (natDigits n).length ≤ 2 :=
  natDigitsAux_length_le_two _ _ (Nat.lt_succ_self n) h

theorem acceptable_wells_short : ∀ w ∈ ACCEPTABLE_WELLS, w.length ≤ 3 := by
  intro w hw
  unfold ACCEPTABLE_WELLS at hw
  simp only [List.mem_append, List.mem_flatMap, List.mem_map, List.mem_range] at hw
  have hcol : ∀ i : Nat, i < 24 → (natDigits (i + 1)).length ≤ 2 := by
    intro i hi
    exact natDigits_length_le_two (by omega)
  rcases hw with ⟨r, _, c, ⟨i, hi, rfl⟩, rfl⟩ | ⟨u, ⟨r, _, c, ⟨i, hi, rfl⟩, rfl⟩, hpadeq⟩
  · simp only [List.length_cons]
    have := hcol i hi
    omega
  · have hpad : pad (r :: natDigits (i + 1)) true
        = .ok (r :: (if (natDigits (i + 1)).length = 1
            then '0' :: natDigits (i + 1) else natDigits (i + 1))) := by
      simp [pad, parseDigits_natDigits]
    rw [hpad] at hpadeq
    subst hpadeq
    by_cases hl : (natDigits (i + 1)).length = 1
    · simp [hl]
    · have := hcol i hi
      simp only [if_neg hl, List.length_cons]
      omega

theorem sentinel_long {s : LC} (h : lcLower s ∈ ACCEPTABLE) : 4 ≤ s.length := by
  have hlen : (lcLower s).length = s.length := List.length_map ..
  have hall : ∀ t ∈ ACCEPTABLE, 4 ≤ t.length := by decide
  have := hall _ h
  omega

theorem sentinel_not_acceptable_well {s : LC} (h : lcLower s ∈ ACCEPTABLE) :
    s ∉ ACCEPTABLE_WELLS := by
  intro hm
  have h1 := acceptable_wells_short s hm
  have h2 := sentinel_long h
  omega

theorem two_mem_length {β : Type} {l : List β} {a b : β} (ha : a ∈ l) (hb : b ∈ l)
    (hne : a ≠ b) : 2 ≤ l.length := by
  match l with
  | [] => cases ha
  | [x] =>
    rw [List.mem_singleton] at ha hb
    exact absurd (ha.trans hb.symm) hne
  | _ :: _ :: t => simp [List.length_cons]

/-- Shared core of C8: two distinct keys of the expanded mapping that are both
outside the acceptable-well list drive `check_annotations` into the
multiple-non-well-keys `ValueError`. -/
theorem checkColumn_two_nonwell {α : Type} (inner working : Dict α) (zp : Bool)
    (s1 s2 : LC)
    (hwr : wellRegex inner (some zp) = .ok working)
    (h1 : s1 ∈ working.map Prod.fst) (h2 : s2 ∈ working.map Prod.fst)
    (hne : s1 ≠ s2)
    (hna1 : s1 ∉ ACCEPTABLE_WELLS) (hna2 : s2 ∉ ACCEPTABLE_WELLS) :
    checkColumnAnnotations inner zp = .error .multipleNonWellKeys := by
  have hm1 : s1 ∈ ((working.map Prod.fst).filter
      (fun k => ¬(k ∈ ACCEPTABLE_WELLS))).dedup := by
    rw [List.mem_dedup]
    exact List.mem_filter.mpr ⟨h1, by simpa using hna1⟩
  have hm2 : s2 ∈ ((working.map Prod.fst).filter
      (fun k => ¬(k ∈ ACCEPTABLE_WELLS))).dedup := by
    rw [List.mem_dedup]
    exact List.mem_filter.mpr ⟨h2, by simpa using hna2⟩
  have hlen := two_mem_length hm1 hm2 hne
  simp only [checkColumnAnnotations, hwr]
  rw [if_neg (by omega), if_pos (by omega)]

/-- C8: a column whose inner mapping contains two distinct keys that both
resolve to default sentinels fails annotation validation with the
multiple-non-well-keys `ValueError` (the `MultipleDefaultsError` kind). -/
theorem checkColumn_multiple_defaults {α : Type} (inner working : Dict α) (zp : Bool)
    (s1 s2 : LC)
    (hwr : wellRegex inner (some zp) = .ok working)
    (h1 : s1 ∈ working.map Prod.fst) (h2 : s2 ∈ working.map Prod.fst)
    (hne : s1 ≠ s2)
    (hs1 : lcLower s1 ∈ ACCEPTABLE) (hs2 : lcLower s2 ∈ ACCEPTABLE) :
    checkColumnAnnotations inner zp = .error .multipleNonWellKeys :=
  checkColumn_two_nonwell inner working zp s1 s2 hwr h1 h2 hne
    (sentinel_not_acceptable_well hs1) (sentinel_not_acceptable_well hs2)

set_option maxRecDepth 10000 in
/-- Witness for C8: the column {"A1": 1, "default": 0, "standard": 2} holds
both sentinels and fails validation. -/
theorem checkColumn_multiple_defaults_witness :
    (wellRegex [(toLC "A1", (1 : Nat)), (toLC "default", 0), (toLC "standard", 2)]
        (some false)
      = .ok [(toLC "A1", 1), (toLC "default", 0), (toLC "standard", 2)]) ∧
    checkColumnAnnotations
        [(toLC "A1", (1 : Nat)), (toLC "default", 0), (toLC "standard", 2)] false
      = .error .multipleNonWellKeys :=
  ⟨by decide,
    checkColumn_multiple_defaults
      [(toLC "A1", (1 : Nat)), (toLC "default", 0), (toLC "standard", 2)]
      [(toLC "A1", (1 : Nat)), (toLC "default", 0), (toLC "standard", 2)]
      false (toLC "default") (toLC "standard")
      (by decide) (by decide) (by decide) (by decide) (by decide) (by decide)⟩

/-! ### Claim C1: per-column annotation assignment -/

theorem dictGet_of_mem_nodup {α : Type} {W : Dict α} {k : LC} {v : α}
    (hnd : (W.map Prod.fst).Nodup) (hm : (k, v) ∈ W) : dictGet W k = some v := by
  induction W with
  | nil => cases hm
  | cons e rest ih =>
    obtain ⟨k', v'⟩ := e
    rw [List.map_cons] at hnd
    have hnd' := List.nodup_cons.mp hnd
    rcases List.mem_cons.mp hm with h | h
    · cases h
      simp [dictGet]
    · by_cases hk : k' = k
      · subst hk
        exact absurd (List.mem_map_of_mem Prod.fst h) hnd'.1
      · simp [dictGet, hk, ih hnd'.2 h]

theorem foldDefault_no_sentinel {α : Type} (W : Dict α) (l : Dict α) (acc : Option α)
    (h : ∀ e ∈ l, sentinelP e = false) :
    l.foldl (fun acc e => if sentinelP e then dictGet W e.1 else acc) acc = acc := by
  induction l generalizing acc with
  | nil => rfl
  | cons e rest ih =>
    rw [List.foldl_cons, if_neg (by simp [h e (List.mem_cons_self ..)])]
    exact ih _ (fun x hx => h x (List.mem_cons_of_mem _ hx))

theorem foldDefault_unique {α : Type} (W : Dict α) (l : Dict α) (acc : Option α)
    (hsub : ∀ e ∈ l, e ∈ W)
    (hnd : (W.map Prod.fst).Nodup)
    (hone : (l.filter sentinelP).length ≤ 1) :
    l.foldl (fun acc e => if sentinelP e then dictGet W e.1 else acc) acc
      = match l.find? sentinelP with
        | some e => some e.2
        | none => acc := by
  induction l generalizing acc with
  | nil => rfl
  | cons e rest ih =>
    by_cases hs : sentinelP e = true
    · rw [List.foldl_cons, if_pos hs, List.find?_cons_of_pos _ hs]
      have hrest : ∀ x ∈ rest, sentinelP x = false := by
        intro x hx
        cases hsx : sentinelP x with
        | false => rfl
        | true =>
          exfalso
          have hfe : (e :: rest).filter sentinelP
              = e :: rest.filter sentinelP := List.filter_cons_of_pos hs
          have hxm : x ∈ rest.filter sentinelP := List.mem_filter.mpr ⟨hx, hsx⟩
          have hpos : 0 < (rest.filter sentinelP).length :=
            List.length_pos.mpr (List.ne_nil_of_mem hxm)
          rw [hfe] at hone
          simp only [List.length_cons] at hone
          omega
      rw [foldDefault_no_sentinel W rest _ hrest]
      have hm : (e.1, e.2) ∈ W := by
        simpa using hsub e (List.mem_cons_self ..)
      rw [dictGet_of_mem_nodup hnd hm]
    · have hs' : sentinelP e = false := by
        cases hsx : sentinelP e with
        | false => rfl
        | true => exact absurd hsx hs
      rw [List.foldl_cons, if_neg (by simp [hs']), List.find?_cons_of_neg _ (by simp [hs'])]
      refine ih _ (fun x hx => hsub x (List.mem_cons_of_mem _ hx)) ?_
      rw [List.filter_cons_of_neg (by simp [hs'])] at hone
      exact hone

theorem findDefault_unique {α : Type} (W : Dict α)
    (hnd : (W.map Prod.fst).Nodup)
    (hone : (W.filter sentinelP).length ≤ 1) :
    findDefault W = (W.find? sentinelP).map Prod.snd := by
  unfold findDefault
  rw [foldDefault_unique W W none (fun e he => he) hnd hone]
  cases W.find? sentinelP <;> simp

theorem checkColumn_ok_sentinel_le_one {α : Type} {inner working : Dict α} {zp : Bool}
    (hwr : wellRegex inner (some zp) = .ok working)
    (hnd : (working.map Prod.fst).Nodup)
    (hok : checkColumnAnnotations inner zp = .ok ()) :
    (working.filter sentinelP).length ≤ 1 := by
  by_contra hgt
  push_neg at hgt
  obtain ⟨e1, e2, t, hft⟩ : ∃ e1 e2 t, working.filter sentinelP = e1 :: e2 :: t := by
    match hf : working.filter sentinelP with
    | [] => rw [hf] at hgt; simp at hgt
    | [x] => rw [hf] at hgt; simp at hgt
    | x :: y :: t => exact ⟨x, y, t, rfl⟩
  have hsubl : (working.filter sentinelP).Sublist working := List.filter_sublist ..
  have hndf : ((working.filter sentinelP).map Prod.fst).Nodup :=
    (hsubl.map Prod.fst).nodup hnd
  rw [hft, List.map_cons, List.map_cons, List.nodup_cons] at hndf
  have hkne : e1.1 ≠ e2.1 := by
    intro hq
    apply hndf.1
    rw [hq]
    exact List.mem_cons_self e2.1 _
  have he1f : e1 ∈ working.filter sentinelP := by
    rw [hft]
    exact List.mem_cons_self e1 (e2 :: t)
  have he2f : e2 ∈ working.filter sentinelP := by
    rw [hft]
    exact List.mem_cons_of_mem _ (List.mem_cons_self e2 t)
  have he1s : sentinelP e1 = true := (List.mem_filter.mp he1f).2
  have he2s : sentinelP e2 = true := (List.mem_filter.mp he2f).2
  have hchk := checkColumn_two_nonwell inner working zp e1.1 e2.1 hwr
    (List.mem_map_of_mem Prod.fst (hsubl.subset he1f))
    (List.mem_map_of_mem Prod.fst (hsubl.subset he2f))
    hkne
    (sentinel_not_acceptable_well (by simpa [sentinelP] using he1s))
    (sentinel_not_acceptable_well (by simpa [sentinelP] using he2s))
  rw [hok] at hchk
  exact absurd hchk (by simp)

theorem dictGet_map_self {α : Type} (ws : List LC) (f : LC → Option α) (w : LC)
    (h : w ∈ ws) :
    dictGet (ws.map (fun w => (w, f w))) w = some (f w) := by
  induction ws with
  | nil => cases h
  | cons u us ih =>
    by_cases hu : u = w
    · subst hu
      simp [dictGet]
    · rcases List.mem_cons.mp h with h' | h'
      · exact absurd h'.symm hu
      · simp [dictGet, hu, ih h']

/-- C1: for a validated annotation column (inner keys are well/range
expressions plus at most one default sentinel) and any plate well space,
`annotate_wells` assigns every well of the well space exactly one cell: the
value of the expanded expression matching it, else the (unique) default
sentinel's value when one was given, else null. -/
theorem annotateColumn_spec {α : Type} (inner working : Dict α) (zp : Bool)
    (wellSpace : List LC)
    (hwr : wellRegex inner (some zp) = .ok working)
    (hnd : (working.map Prod.fst).Nodup)
    (hok : checkColumnAnnotations inner zp = .ok ())
    (hws : wellSpace.Nodup) :
    ∃ out, annotateColumn inner zp wellSpace = .ok out ∧
      out.map Prod.fst = wellSpace ∧
      (out.map Prod.fst).Nodup ∧
      (working.filter sentinelP).length ≤ 1 ∧
      ∀ w ∈ wellSpace, dictGet out w = some
        ((dictGet working w).orElse
          (fun _ => (working.find? sentinelP).map Prod.snd)) := by
  have hone := checkColumn_ok_sentinel_le_one hwr hnd hok
  have hfd := findDefault_unique working hnd hone
  have hmap : List.map Prod.fst (wellSpace.map (fun w =>
      (w, match dictGet working w with
          | some v => some v
          | none => findDefault working))) = wellSpace := by
    rw [List.map_map]
    exact List.map_id' wellSpace
  refine ⟨wellSpace.map (fun w => (w, match dictGet working w with
    | some v => some v
    | none => findDefault working)), ?_, hmap, ?_, hone, ?_⟩
  · simp [annotateColumn, hok, hwr]
  · rw [hmap]
    exact hws
  · intro w hw
    rw [dictGet_map_self _ _ _ hw, hfd]
    cases dictGet working w <;> simp [Option.orElse]

set_option maxRecDepth 10000 in
/-- Witness for C1 at the column {"A1": 1, "other": 0} over the well space
{A1, A2} with zero padding false: the result is {"A1": 1, "A2": 0}. -/
theorem annotateColumn_spec_witness :
    (annotateColumn [(toLC "A1", (1 : Nat)), (toLC "other", 0)] false
        [toLC "A1", toLC "A2"]
      = .ok [(toLC "A1", some 1), (toLC "A2", some 0)]) ∧
    (∃ out, annotateColumn [(toLC "A1", (1 : Nat)), (toLC "other", 0)] false
        [toLC "A1", toLC "A2"] = .ok out ∧
      out.map Prod.fst = [toLC "A1", toLC "A2"] ∧
      (out.map Prod.fst).Nodup ∧
      (([(toLC "A1", (1 : Nat)), (toLC "other", 0)] : Dict Nat).filter sentinelP).length ≤ 1 ∧
      ∀ w ∈ [toLC "A1", toLC "A2"],
        dictGet out w = some
          ((dictGet [(toLC "A1", (1 : Nat)), (toLC "other", 0)] w).orElse
            (fun _ => (([(toLC "A1", (1 : Nat)), (toLC "other", 0)] : Dict Nat).find?
               sentinelP).map Prod.snd))) :=
  ⟨by decide,
    annotateColumn_spec [(toLC "A1", (1 : Nat)), (toLC "other", 0)]
      [(toLC "A1", (1 : Nat)), (toLC "other", 0)] false [toLC "A1", toLC "A2"]
      (by decide) (by decide) (by decide) (by decide)⟩

/-! ### Claim C9: overlap resolution between two expressions in one column -/

/-- C9 counterexample: in {"[A-B]1": 1, "A1": 2} the later-declared literal
expression "A1" also matches well A1, yet the final value at A1 is 1 (the
earlier range's value): the range expansion overwrote the stored value of the
literal key before that key was processed. -/
theorem wellRegex_overlap_counterexample :
    wellRegex [(toLC "[A-B]1", (1 : Nat)), (toLC "A1", 2)] (some false)
        = .ok [(toLC "B1", 1), (toLC "A1", 1)] ∧
      ¬ dictGet [(toLC "B1", (1 : Nat)), (toLC "A1", 1)] (toLC "A1") = some 2 := by
  constructor
  · decide
  · decide

/-- C9 amended: when the two overlapping expressions are both bracketed range
expressions (so that neither coincides with an expanded well identifier), the
later-declared expression's value wins at every well its expansion matches. -/
theorem wellRegex_two_ranges_later_wins {α : Type} (e1 e2 w : LC) (v1 v2 : α)
    (wells1 cols1 wells2 cols2 : List LC)
    (h1 : '[' ∈ e1) (h2 : '[' ∈ e2) (hne : e1 ≠ e2)
    (hp1 : processAssignment COLS0 e1 = .ok (wells1, cols1))
    (hp2 : processAssignment cols1 e2 = .ok (wells2, cols2))
    (hplain : ∀ u ∈ wells1, '[' ∉ u)
    (hw1 : w ∈ wells1) (hw2 : w ∈ wells2) :
    ∃ d, wellRegex [(e1, v1), (e2, v2)] (some false) = .ok d ∧
      dictGet d w = some v2 := by
  have hne2 : ∀ u ∈ wells1, u ≠ e2 := by
    intro u hu hq
    exact (hplain u hu) (hq ▸ h2)
  have hpop : dictPop (dictSetAll [(e2, v2)] wells1 v1) e2
      = some (v2, dictSetAll [] wells1 v1) := by
    rw [dictPop_setAll_ne _ _ _ _ hne2]
    simp [dictPop]
  have hstep : wellRegexLoop (α := α) COLS0 [(e1, v1), (e2, v2)] [e1, e2]
      = .ok (dictSetAll (dictSetAll [] wells1 v1) wells2 v2, cols2) := by
    simp [wellRegexLoop, dictPop, hp1, hpop, hp2]
  refine ⟨dictSetAll (dictSetAll [] wells1 v1) wells2 v2, ?_,
    dictGet_setAll_mem _ _ _ _ hw2⟩
  simp only [wellRegex, List.map_cons, List.map_nil, hstep, padApply]
  simp

/-- Witness for C9 (amended): {"A[1-2]": 10, "[A-B]1": 20} over the overlap
well A1 assigns 20, the later range's value. -/
theorem wellRegex_two_ranges_later_wins_witness :
    (processAssignment COLS0 (toLC "A[1-2]") = .ok ([toLC "A1", toLC "A2"], COLS0)) ∧
    (processAssignment COLS0 (toLC "[A-B]1") = .ok ([toLC "A1", toLC "B1"], COLS0)) ∧
    (∃ d, wellRegex [(toLC "A[1-2]", (10 : Nat)), (toLC "[A-B]1", 20)] (some false)
        = .ok d ∧ dictGet d (toLC "A1") = some 20) :=
  ⟨by decide, by decide,
    wellRegex_two_ranges_later_wins (toLC "A[1-2]") (toLC "[A-B]1") (toLC "A1") 10 20
      [toLC "A1", toLC "A2"] COLS0 [toLC "A1", toLC "B1"] COLS0
      (by decide) (by decide) (by decide) (by decide) (by decide) (by decide)
      (by decide) (by decide)⟩

/-- Witness for C5 at w = "A1", p1 = true, p2 = false: padding then unpadding
recovers exactly the single unpadded canonicalization. -/
theorem pad_pad_witness :
    pad (toLC "A1") true = .ok (toLC "A01") ∧
      pad (toLC "A01") false = pad (toLC "A1") false :=
  ⟨by decide, pad_pad (toLC "A1") (toLC "A01") true false (by decide)⟩
